import Mathlib

/-!
Shallow embedding of the quiz-session coordinator (server.js) of the
DovuiTet2026 repository, together with proofs checking the specification's
claims against it.

JS values are modelled as follows: finite JS numbers become ℚ (times in
milliseconds, which the server only ever adds and subtracts, become ℤ;
integer indices become ℤ or ℕ), a possibly-NaN number becomes Option ℚ,
nullable fields become Option, JS Maps become insertion-ordered association
lists, JS Sets become duplicate-free lists, Date.now() and Math.random()
become explicit parameters carried by the triggering event, and the
fire-and-forget sheet writes become an explicit list of emitted effects.
-/

namespace Dovui

/-- JS String.prototype.trim: drop leading and trailing whitespace. -/
def jsTrim (s : String) : String :=
  String.mk (((s.data.dropWhile Char.isWhitespace).reverse.dropWhile
    Char.isWhitespace).reverse)

/-- Phases of the session state machine, per the comment in resetState:
lobby | question | revealed | leaderboard | finished. -/
inductive Phase where
  | lobby | question | revealed | leaderboard | finished
deriving DecidableEq, Repr

/-- A question as loaded from the Questions sheet into QUESTION_BANK. -/
structure Question where
  qId : String
  text : String
  choices : List String
  correctIndex : ℤ
  timeSec : Option ℚ
  mediaType : String
  mediaUrl : String
deriving DecidableEq, Repr

/-- An entry of TEAM_REGISTRY: {pin, name, avatarUrl, members}. -/
structure TeamInfo where
  pin : String
  name : String
  avatarUrl : String
  members : List String
deriving DecidableEq, Repr

/-- A live team object as built by doJoinTeam. -/
structure Team where
  id : String
  pin : String
  name : String
  avatarUrl : String
  members : List String
  leaderName : String
  score : ℚ
  lockedChoice : Option ℕ
  lockedAtRunMs : Option ℤ
  lastResult : Option Bool
  lastPointsAwarded : ℤ
  ip : String
  userAgent : String
  joinedAt : ℤ
deriving DecidableEq, Repr

/-- A pending takeover request: pendingTakeovers maps a pin to one of these. -/
structure TakeoverReq where
  requesterId : String
  requestedAt : ℤ
  ip : String
  userAgent : String
deriving DecidableEq, Repr

/-- Lookup in a JS Map modelled as an insertion-ordered association list. -/
def alGet {α : Type} : List (String × α) → String → Option α
  | [], _ => none
  | kv :: rest, k => if kv.1 = k then some kv.2 else alGet rest k

/-- Map.set: replace in place when the key is present, else append. -/
def alSet {α : Type} : List (String × α) → String → α → List (String × α)
  | [], k, v => [(k, v)]
  | kv :: rest, k, v => if kv.1 = k then (k, v) :: rest else kv :: alSet rest k v

/-- Map.delete. -/
def alDel {α : Type} (m : List (String × α)) (k : String) : List (String × α) :=
  m.filter fun kv => decide (kv.1 ≠ k)

/-- Set.add on a JS Set modelled as a duplicate-free list. -/
def setAdd (s : List String) (x : String) : List String :=
  if x ∈ s then s else s ++ [x]

/-- Set.delete. -/
def setDel (s : List String) (x : String) : List String :=
  s.filter fun y => decide (y ≠ x)

/-- JS Math.round: round half toward positive infinity. -/
def jsRound (x : ℚ) : ℤ := ⌊x + 1 / 2⌋

/-- computeQuestionScore from server.js. A `none` argument stands for a
non-finite JS number (the Number.isFinite guards in the source). -/
def computeQuestionScore (isCorrect : Bool) (lockedAtRunMs : Option ℚ)
    (timeSec : Option ℚ) : ℤ :=
  if !isCorrect then 0
  else
    let ts : ℚ := match timeSec with
      | some t => max 1 ((jsRound t : ℤ) : ℚ)
      | none => 20
    let elapsedSec : ℚ := match lockedAtRunMs with
      | some ms => ms / 1000
      | none => ts
    let maxPoints : ℤ := 20
    if elapsedSec ≤ 4 then maxPoints
    else
      let secondsLate : ℤ := max 0 ⌈elapsedSec - 4⌉
      max 0 (maxPoints - secondsLate)

/-- The session state object built by resetState. -/
structure SessionState where
  title : String
  gameId : ℤ
  phase : Phase
  qIndex : ℤ
  paused : Bool
  manualScoring : Bool
  startedAtMs : ℤ
  accumulatedRunMs : ℤ
  timeSec : ℚ
  shuffleQuestions : Bool
  shuffleChoices : Bool
  gameQuestions : Option (List Question)
  teams : List (String × Team)
  claimedPins : List String
  hostId : Option String
  projectorIds : List String
  questionLogged : Bool
  questionRunId : String
deriving DecidableEq, Repr

/-- GAME_TITLE (transliterated). -/
def GAME_TITLE : String := "Do vui Tet 2026"

/-- resetState from server.js; the fresh opaque gameId (Date.now plus a
random suffix in the source) is supplied by the caller. -/
def resetState (gid : ℤ) : SessionState where
  title := GAME_TITLE
  gameId := gid
  phase := .lobby
  qIndex := -1
  paused := true
  manualScoring := false
  startedAtMs := 0
  accumulatedRunMs := 0
  timeSec := 20
  shuffleQuestions := true
  shuffleChoices := true
  gameQuestions := none
  teams := []
  claimedPins := []
  hostId := none
  projectorIds := []
  questionLogged := false
  questionRunId := ""

/-- The whole mutable server picture: the session state object, the global
pendingTakeovers map, and the set of currently connected socket ids
(io.sockets). -/
structure World where
  state : SessionState
  pendingTakeovers : List (String × TakeoverReq)
  connected : List String
deriving DecidableEq, Repr

/-- getCurrentQuestionObj. -/
def getCurrentQuestionObj (s : SessionState) : Option Question :=
  match s.gameQuestions with
  | some qs => if 0 ≤ s.qIndex then qs.get? s.qIndex.toNat else none
  | none => none

/-- getRunElapsedMs; `now` is Date.now() at the moment of the call. -/
def getRunElapsedMs (s : SessionState) (now : ℤ) : ℤ :=
  if s.phase ≠ .question then s.accumulatedRunMs
  else if s.paused then s.accumulatedRunMs
  else s.accumulatedRunMs + (now - s.startedAtMs)

/-- getRemainingSec: null outside the question phase. -/
def getRemainingSec (s : SessionState) (now : ℤ) : Option ℤ :=
  if s.phase ≠ .question then none
  else
    let elapsed : ℚ := (getRunElapsedMs s now : ℚ) / 1000
    some (max 0 ⌈s.timeSec - elapsed⌉)

/-- The per-team answer-state reset done inside startQuestion's loop. -/
def clearTeamAnswers (t : Team) : Team :=
  { t with lockedChoice := none, lockedAtRunMs := none, lastResult := none,
           lastPointsAwarded := 0 }

/-- startQuestion(index). -/
def startQuestion (s : SessionState) (index : ℤ) : SessionState :=
  let s := { s with phase := Phase.question, qIndex := index, paused := true,
                    accumulatedRunMs := 0, startedAtMs := 0,
                    questionLogged := false, questionRunId := "" }
  let ts : ℚ := match getCurrentQuestionObj s with
    | some q => match q.timeSec with
      | some t => t
      | none => 20
    | none => 20
  { s with timeSec := ts,
           teams := s.teams.map fun kv => (kv.1, clearTeamAnswers kv.2) }

/-- makeQuestionRunId. -/
def makeQuestionRunId (s : SessionState) (now : ℤ) : String :=
  toString s.gameId ++ "-Q" ++ toString (s.qIndex + 1) ++ "-" ++ toString now

/-- The fire-and-forget sheet writes issued by the coordinator. -/
inductive Effect where
  | logQuestion | logAnswers | syncTotals
deriving DecidableEq, BEq, Repr

/-- logQuestionIfNeeded: flips the questionLogged guard and generates the
questionRunId; returns the QuestionLog append effect when one is issued. -/
def logQuestionIfNeeded (s : SessionState) (now : ℤ) : SessionState × List Effect :=
  if s.phase ≠ .question then (s, [])
  else if s.questionLogged then (s, [])
  else match getCurrentQuestionObj s with
    | none => (s, [])
    | some _ => ({ s with questionLogged := true,
                          questionRunId := makeQuestionRunId s now }, [.logQuestion])

/-- resume. -/
def resume (s : SessionState) (now : ℤ) : SessionState :=
  if s.phase ≠ .question ∨ s.paused = false then s
  else
    let s := (logQuestionIfNeeded s now).1
    { s with paused := false, startedAtMs := now }

/-- pause. -/
def pause (s : SessionState) (now : ℤ) : SessionState :=
  if s.phase ≠ .question ∨ s.paused = true then s
  else { s with accumulatedRunMs := s.accumulatedRunMs + (now - s.startedAtMs),
                startedAtMs := 0, paused := true }

/-- One iteration of revealAnswer's scoring loop over the teams. -/
def scoreTeamOnReveal (correct : ℤ) (timeSec : ℚ) (t : Team) : Team :=
  let t := { t with lastPointsAwarded := 0 }
  match t.lockedChoice, t.lockedAtRunMs with
  | some c, some ms =>
      let isCorrect : Bool := decide ((c : ℤ) = correct)
      let gained := computeQuestionScore isCorrect (some ((ms : ℤ) : ℚ)) (some timeSec)
      { t with lastResult := some isCorrect,
               lastPointsAwarded := gained,
               score := t.score + (gained : ℚ) }
  | _, _ => { t with lastResult := some false }

/-- revealAnswer, with the list of sheet-write effects it issues. -/
def revealAnswerFx (s : SessionState) (now : ℤ) : SessionState × List Effect :=
  if s.phase ≠ .question then (s, [])
  else
    let s := if s.paused = false ∧ s.startedAtMs ≠ 0 then
        { s with accumulatedRunMs := s.accumulatedRunMs + (now - s.startedAtMs),
                 startedAtMs := 0 }
      else s
    let s := { s with paused := true, phase := Phase.revealed }
    match getCurrentQuestionObj s with
    | none => (s, [])
    | some q =>
      let sfx := logQuestionIfNeeded s now
      let s := sfx.1
      if s.manualScoring then
        let s := { s with teams := s.teams.map fun kv =>
          (kv.1, { kv.2 with lastResult := none, lastPointsAwarded := 0 }) }
        (s, sfx.2 ++ [.logAnswers, .syncTotals])
      else
        let s := { s with teams := s.teams.map fun kv =>
          (kv.1, scoreTeamOnReveal q.correctIndex s.timeSec kv.2) }
        (s, sfx.2 ++ [.syncTotals, .logAnswers, .syncTotals, .logAnswers])

/-- revealAnswer's state change alone. -/
def revealAnswer (s : SessionState) (now : ℤ) : SessionState :=
  (revealAnswerFx s now).1

/-- showLeaderboard. -/
def showLeaderboard (s : SessionState) : SessionState :=
  if s.phase ≠ .revealed then s
  else { s with phase := Phase.leaderboard, paused := true }

/-- nextQuestion. -/
def nextQuestion (s : SessionState) : SessionState :=
  let total : ℤ := match s.gameQuestions with
    | some qs => qs.length
    | none => 0
  if total - 1 ≤ s.qIndex then { s with phase := Phase.finished, paused := true }
  else startQuestion s (s.qIndex + 1)

/-- Swap two array cells when both indices are in bounds (they always are at
shuffleArray's call sites, mirroring the source's unchecked accesses). -/
def swapCells {α : Type} (a : Array α) (i j : ℕ) : Array α :=
  if h : i < a.size ∧ j < a.size then a.swap ⟨i, h.1⟩ ⟨j, h.2⟩ else a

/-- Fisher-Yates shuffleArray from server.js. `rnd i % (i + 1)` stands for
Math.floor(Math.random() * (i + 1)) at loop index i, so every in-range draw
is representable. -/
def shuffleArray {α : Type} (rnd : ℕ → ℕ) (l : List α) : List α :=
  let idxs := ((List.range l.length).reverse).filter fun i => decide (0 < i)
  (idxs.foldl (fun a i => swapCells a i (rnd i % (i + 1))) l.toArray).toList

/-- shuffleChoicesForQuestion: permute the choices and recompute the
correct-choice index under the new order (JS findIndex gives -1 when the
original index is absent). -/
def shuffleChoicesForQuestion (rnd : ℕ → ℕ) (q : Question) : Question :=
  let pairs := q.choices.enum.map fun ic => (ic.2, ic.1)
  let pairs := shuffleArray rnd pairs
  let newCorrect : ℤ := match pairs.findIdx? (fun p => decide ((p.2 : ℤ) = q.correctIndex)) with
    | some i => (i : ℤ)
    | none => -1
  { q with choices := pairs.map fun p => p.1, correctIndex := newCorrect }

/-- buildGameQuestions: per-question choice shuffles draw from `rndC i`,
the question-order shuffle from `rndQ`. -/
def buildGameQuestions (bank : List Question) (rndC : ℕ → ℕ → ℕ) (rndQ : ℕ → ℕ)
    (shuffleQuestions shuffleChoices : Bool) : List Question :=
  let qlist := if shuffleChoices then
      bank.enum.map fun iq => shuffleChoicesForQuestion (rndC iq.1) iq.2
    else bank
  if shuffleQuestions then shuffleArray rndQ qlist else qlist

/-- findTeamByPin: first team (in Map insertion order) holding the pin. -/
def findTeamByPin (s : SessionState) (pin : String) : Option Team :=
  let p := jsTrim pin
  (s.teams.map Prod.snd).find? fun t => decide (t.pin = p)

/-- clearPendingTakeoverForPin (requesterId defaults to null at every call
site in the source). -/
def clearPendingTakeoverForPin (pend : List (String × TakeoverReq)) (pin : String)
    (requesterId : Option String) : List (String × TakeoverReq) :=
  let p := jsTrim pin
  match alGet pend p with
  | none => pend
  | some cur =>
    match requesterId with
    | some rid => if cur.requesterId ≠ rid then pend else alDel pend p
    | none => alDel pend p

/-- doJoinTeam: build a fresh team object for this connection and claim the
pin. `now` is Date.now() (joinedAt), ip and ua the socket's handshake data. -/
def doJoinTeam (w : World) (sid enteredPin : String) (info : TeamInfo)
    (ip ua : String) (now : ℤ) : World :=
  let team : Team := {
    id := sid
    pin := enteredPin
    name := info.name
    avatarUrl := info.avatarUrl
    members := info.members
    leaderName := info.members.headD ""
    score := 0
    lockedChoice := none
    lockedAtRunMs := none
    lastResult := none
    lastPointsAwarded := 0
    ip := ip
    userAgent := ua
    joinedAt := now }
  { w with state := { w.state with
      claimedPins := setAdd w.state.claimedPins enteredPin
      teams := alSet w.state.teams sid team } }

/-- Body of the socket disconnect handler (sans broadcast): clear the host or
projector role, release a held pin and drop its team, clear the pending
takeover for that pin, and drop every request this socket made. -/
def disconnectCleanup (w : World) (sid : String) : World :=
  let hostId := if w.state.hostId = some sid then none else w.state.hostId
  let projectorIds := setDel w.state.projectorIds sid
  let tcp :=
    match alGet w.state.teams sid with
    | some team =>
        (alDel w.state.teams sid, setDel w.state.claimedPins team.pin,
         clearPendingTakeoverForPin w.pendingTakeovers team.pin none)
    | none => (w.state.teams, w.state.claimedPins, w.pendingTakeovers)
  let pend := tcp.2.2.filter fun kv => decide (kv.2.requesterId ≠ sid)
  { state := { w.state with
      hostId := hostId
      projectorIds := projectorIds
      teams := tcp.1
      claimedPins := tcp.2.1 }
    pendingTakeovers := pend
    connected := w.connected }

/-- kickTeamSocket. For a still-connected socket, socket.disconnect(true)
fires the disconnect handler synchronously, so that cleanup happens first;
the function's own two deletions then run (as in the source). -/
def kickTeamSocket (w : World) (team : Team) : World :=
  let w := if team.id ∈ w.connected then
      disconnectCleanup { w with connected := setDel w.connected team.id } team.id
    else w
  { w with state := { w.state with
      claimedPins := setDel w.state.claimedPins team.pin
      teams := alDel w.state.teams team.id } }

/-- The joinTeam socket handler: registry check, already-joined check, then
either a takeover request (pin already claimed) or a normal join. -/
def joinTeamHandler (reg : List TeamInfo) (w : World) (sid pinRaw ip ua : String)
    (now : ℤ) : World :=
  let entered := jsTrim pinRaw
  match reg.find? (fun t => decide (t.pin = entered)) with
  | none => w
  | some info =>
    if (alGet w.state.teams sid).isSome then w
    else if entered ∈ w.state.claimedPins then
      { w with pendingTakeovers := alSet w.pendingTakeovers entered
                 { requesterId := sid, requestedAt := now, ip := ip, userAgent := ua } }
    else doJoinTeam w sid entered info ip ua now

/-- The hostKickTeam handler: target by teamId first, else by pin. -/
def hostKickTeamHandler (w : World) (sid : String) (teamId pin : Option String) : World :=
  if w.state.hostId ≠ some sid then w
  else
    let target : Option Team := match teamId with
      | some tid => alGet w.state.teams tid
      | none => match pin with
        | some p => findTeamByPin w.state p
        | none => none
    match target with
    | none => w
    | some t =>
      let w := { w with pendingTakeovers :=
        clearPendingTakeoverForPin w.pendingTakeovers t.pin none }
      kickTeamSocket w t

/-- The hostApproveTakeover handler: kick the current holder (or repair a
claimed-but-unheld pin), then complete the requester's join if that socket is
still connected (its handshake ip and user agent are the ones recorded in
the request, both being read from the same socket). -/
def hostApproveTakeoverHandler (reg : List TeamInfo) (w : World) (sid pinRaw : String)
    (now : ℤ) : World :=
  if w.state.hostId ≠ some sid then w
  else
    let p := jsTrim pinRaw
    match alGet w.pendingTakeovers p with
    | none => w
    | some req =>
      let requesterAlive := req.requesterId ∈ w.connected
      let currentTeam := findTeamByPin w.state p
      let w := match currentTeam with
        | some t => kickTeamSocket w t
        | none => { w with state := { w.state with
            claimedPins := setDel w.state.claimedPins p } }
      if requesterAlive then
        match reg.find? (fun t => decide (t.pin = p)) with
        | none => { w with pendingTakeovers := alDel w.pendingTakeovers p }
        | some info =>
          let w := { w with state := { w.state with
            claimedPins := setDel w.state.claimedPins p } }
          let w := doJoinTeam w req.requesterId p info req.ip req.userAgent now
          { w with pendingTakeovers := alDel w.pendingTakeovers p }
      else { w with pendingTakeovers := alDel w.pendingTakeovers p }

/-- The hostDenyTakeover handler. -/
def hostDenyTakeoverHandler (w : World) (sid pinRaw : String) : World :=
  if w.state.hostId ≠ some sid then w
  else
    let p := jsTrim pinRaw
    match alGet w.pendingTakeovers p with
    | none => w
    | some _ => { w with pendingTakeovers := alDel w.pendingTakeovers p }

/-- The lockAnswer handler. The payload after Number() coercion is an
Option ℚ (`none` = NaN); [0,1,2,3].includes filters it. -/
def lockAnswerHandler (w : World) (sid : String) (choice : Option ℚ) (now : ℤ) : World :=
  match alGet w.state.teams sid with
  | none => w
  | some team =>
    if w.state.phase ≠ .question then w
    else if w.state.paused then w
    else if team.lockedChoice.isSome then w
    else
      match choice with
      | none => w
      | some c =>
        if c = 0 ∨ c = 1 ∨ c = 2 ∨ c = 3 then
          let t := { team with lockedChoice := some c.num.toNat,
                               lockedAtRunMs := some (getRunElapsedMs w.state now) }
          { w with state := { w.state with teams := alSet w.state.teams sid t } }
        else w

/-- The hostStart handler: no phase guard in the source; a host command with
an empty question bank only emits hostError. -/
def hostStartHandler (bank : List Question) (w : World) (sid : String)
    (rndC : ℕ → ℕ → ℕ) (rndQ : ℕ → ℕ) : World :=
  if w.state.hostId ≠ some sid then w
  else if bank.isEmpty then w
  else
    let gqs := buildGameQuestions bank rndC rndQ w.state.shuffleQuestions
      w.state.shuffleChoices
    let s := { w.state with gameQuestions := some gqs }
    { w with state := startQuestion s 0 }

/-- The hostPauseToggle handler. -/
def hostPauseToggleHandler (w : World) (sid : String) (now : ℤ) : World :=
  if w.state.hostId ≠ some sid then w
  else if w.state.phase ≠ .question then w
  else if w.state.paused then { w with state := resume w.state now }
  else { w with state := pause w.state now }

/-- The hostReveal handler. -/
def hostRevealHandler (w : World) (sid : String) (now : ℤ) : World :=
  if w.state.hostId ≠ some sid then w
  else if w.state.phase ≠ .question then w
  else { w with state := revealAnswer w.state now }

/-- The hostNext handler: revealed → leaderboard, leaderboard → next. -/
def hostNextHandler (w : World) (sid : String) : World :=
  if w.state.hostId ≠ some sid then w
  else if w.state.phase = .revealed then { w with state := showLeaderboard w.state }
  else if w.state.phase = .leaderboard then { w with state := nextQuestion w.state }
  else w

/-- The hostReset handler: state = resetState(); pendingTakeovers = new Map(). -/
def hostResetHandler (w : World) (sid : String) (gid : ℤ) : World :=
  if w.state.hostId ≠ some sid then w
  else { state := resetState gid, pendingTakeovers := [], connected := w.connected }

/-- The hostSetShuffle handler (typeof boolean guards modelled as Option). -/
def hostSetShuffleHandler (w : World) (sid : String) (sq sc : Option Bool) : World :=
  if w.state.hostId ≠ some sid then w
  else
    let s := match sq with
      | some b => { w.state with shuffleQuestions := b }
      | none => w.state
    let s := match sc with
      | some b => { s with shuffleChoices := b }
      | none => s
    { w with state := s }

/-- The hostSetManualScoring handler. -/
def hostSetManualScoringHandler (w : World) (sid : String) (b : Bool) : World :=
  if w.state.hostId ≠ some sid then w
  else { w with state := { w.state with manualScoring := b } }

/-- The hostAdjustScore handler (`none` delta = non-finite Number). -/
def hostAdjustScoreHandler (w : World) (sid teamId : String) (delta : Option ℚ) : World :=
  if w.state.hostId ≠ some sid then w
  else match alGet w.state.teams teamId with
    | none => w
    | some t => match delta with
      | none => w
      | some d =>
        { w with state := { w.state with
            teams := alSet w.state.teams teamId { t with score := t.score + d } } }

/-- One firing of the 200ms auto-reveal interval. -/
def tickStep (w : World) (now : ℤ) : World :=
  if w.state.phase ≠ .question then w
  else if w.state.paused then w
  else match getRemainingSec w.state now with
    | some r => if r ≤ 0 then { w with state := revealAnswer w.state now } else w
    | none => w

/-- The inbound events of the coordinator. Each socket event carries the
socket id; Date.now() readings and Math.random() draws made while handling
an event are carried by the event as explicit data. -/
inductive Event where
  | connect (sid : String)
  | disconnect (sid : String)
  | registerHost (sid : String)
  | registerProjector (sid : String)
  | joinTeam (sid pin ip ua : String) (now : ℤ)
  | hostKickTeam (sid : String) (teamId pin : Option String)
  | hostApproveTakeover (sid pin : String) (now : ℤ)
  | hostDenyTakeover (sid pin : String)
  | lockAnswer (sid : String) (choice : Option ℚ) (now : ℤ)
  | hostReset (sid : String) (gid : ℤ)
  | hostSetShuffle (sid : String) (sq sc : Option Bool)
  | hostSetManualScoring (sid : String) (b : Bool)
  | hostAdjustScore (sid teamId : String) (delta : Option ℚ)
  | hostStart (sid : String) (rndC : ℕ → ℕ → ℕ) (rndQ : ℕ → ℕ)
  | hostPauseToggle (sid : String) (now : ℤ)
  | hostReveal (sid : String) (now : ℤ)
  | hostNext (sid : String)
  | tick (now : ℤ)

/-- A socket event can only come from a currently connected socket. -/
def fromSocket (w : World) (sid : String) (f : World → World) : World :=
  if sid ∈ w.connected then f w else w

/-- The serialized event loop: one inbound event, one state mutation. -/
def step (reg : List TeamInfo) (bank : List Question) (w : World) : Event → World
  | .connect sid =>
      if sid ∈ w.connected then w else { w with connected := w.connected ++ [sid] }
  | .disconnect sid =>
      if sid ∈ w.connected then
        disconnectCleanup { w with connected := setDel w.connected sid } sid
      else w
  | .registerHost sid => fromSocket w sid fun w =>
      { w with state := { w.state with hostId := some sid } }
  | .registerProjector sid => fromSocket w sid fun w =>
      { w with state := { w.state with projectorIds := setAdd w.state.projectorIds sid } }
  | .joinTeam sid pin ip ua now => fromSocket w sid fun w =>
      joinTeamHandler reg w sid pin ip ua now
  | .hostKickTeam sid teamId pin => fromSocket w sid fun w =>
      hostKickTeamHandler w sid teamId pin
  | .hostApproveTakeover sid pin now => fromSocket w sid fun w =>
      hostApproveTakeoverHandler reg w sid pin now
  | .hostDenyTakeover sid pin => fromSocket w sid fun w =>
      hostDenyTakeoverHandler w sid pin
  | .lockAnswer sid c now => fromSocket w sid fun w => lockAnswerHandler w sid c now
  | .hostReset sid gid => fromSocket w sid fun w => hostResetHandler w sid gid
  | .hostSetShuffle sid sq sc => fromSocket w sid fun w =>
      hostSetShuffleHandler w sid sq sc
  | .hostSetManualScoring sid b => fromSocket w sid fun w =>
      hostSetManualScoringHandler w sid b
  | .hostAdjustScore sid tid d => fromSocket w sid fun w =>
      hostAdjustScoreHandler w sid tid d
  | .hostStart sid rc rq => fromSocket w sid fun w => hostStartHandler bank w sid rc rq
  | .hostPauseToggle sid now => fromSocket w sid fun w =>
      hostPauseToggleHandler w sid now
  | .hostReveal sid now => fromSocket w sid fun w => hostRevealHandler w sid now
  | .hostNext sid => fromSocket w sid fun w => hostNextHandler w sid
  | .tick now => tickStep w now

/-- The server's boot state: a fresh session, no requests, no sockets. -/
def initWorld (gid : ℤ) : World :=
  { state := resetState gid, pendingTakeovers := [], connected := [] }

/-- Run a serialized trace of events from boot. -/
def runEvents (reg : List TeamInfo) (bank : List Question) (gid : ℤ)
    (es : List Event) : World :=
  es.foldl (step reg bank) (initWorld gid)

/-- Pairwise distinctness of socket ids and of held pins across the live
team entries. -/
def TeamsOK (teams : List (String × Team)) : Prop :=
  teams.Pairwise fun a b => a.1 ≠ b.1 ∧ a.2.pin ≠ b.2.pin

/-- Every live team's pin is claimed and its id field is its map key. -/
def TeamsTiedL (teams : List (String × Team)) (claimed : List String) : Prop :=
  ∀ kv ∈ teams, kv.2.pin ∈ claimed ∧ kv.2.id = kv.1

/-- The team/claimed-pin consistency invariant on a session state. -/
def InvS (s : SessionState) : Prop :=
  TeamsOK s.teams ∧ TeamsTiedL s.teams s.claimedPins

/-- The team/claimed-pin consistency invariant. -/
def InvTeams (w : World) : Prop :=
  TeamsOK w.state.teams ∧ TeamsTiedL w.state.teams w.state.claimedPins

/-- The pause-discipline invariant: paused whenever not in question phase. -/
def PausedInv (w : World) : Prop :=
  w.state.phase = Phase.question ∨ w.state.paused = true

/-- A two-team registry for concrete traces. -/
def sampleRegistry : List TeamInfo :=
  [{ pin := "1", name := "TA", avatarUrl := "", members := [] },
   { pin := "2", name := "TB", avatarUrl := "", members := [] }]

/-- A concrete loaded question for concrete traces. -/
def sampleQuestion : Question :=
  { qId := "Q1", text := "t", choices := ["a", "b", "c", "d"], correctIndex := 1,
    timeSec := some 20, mediaType := "", mediaUrl := "" }

/-- Degenerate per-question randomness (every Math.random draw zero). -/
def zeroRnd2 : ℕ → ℕ → ℕ := fun _ _ => 0

/-- Degenerate question-order randomness. -/
def zeroRnd : ℕ → ℕ := fun _ => 0

/-- Host connects and registers; team a claims pin 1; team b requests a
takeover of pin 1, then joins normally under pin 2; the host approves the
takeover of pin 1. -/
def c2trace : List Event :=
  [.connect "h", .registerHost "h",
   .connect "a", .joinTeam "a" "1" "" "" 0,
   .connect "b", .joinTeam "b" "1" "" "" 1,
   .joinTeam "b" "2" "" "" 2,
   .hostApproveTakeover "h" "1" 3]

/-- The world after c2trace. -/
def c2world : World := runEvents sampleRegistry [sampleQuestion] 0 c2trace

/-- Host connects, registers, starts the game and reveals: phase revealed. -/
def c3trace : List Event :=
  [.connect "h", .registerHost "h", .hostStart "h" zeroRnd2 zeroRnd,
   .hostReveal "h" 0]

/-- The world after c3trace. -/
def c3world : World := runEvents sampleRegistry [sampleQuestion] 0 c3trace

/-- A running question-phase state for the clock round-trip witness. -/
def c5sample : SessionState :=
  { resetState 0 with phase := Phase.question, paused := false,
                      startedAtMs := 100, accumulatedRunMs := 500 }

/-- A question-phase state about to be revealed (automatic scoring on). -/
def c7sample : SessionState :=
  { resetState 0 with phase := Phase.question, qIndex := 0,
                      gameQuestions := some [sampleQuestion] }

/-- A lobby world whose registered host is connection h. -/
def c10sample : World :=
  { state := { resetState 5 with hostId := some "h" },
    pendingTakeovers := [], connected := ["h"] }

theorem dropWhile_dropWhile {α : Type} (p : α → Bool) (l : List α) :
    (l.dropWhile p).dropWhile p = l.dropWhile p := by
  induction l with
  | nil => rfl
  | cons c t ih =>
    by_cases h : p c
    · simp only [List.dropWhile_cons, if_pos h]
      exact ih
    · simp only [List.dropWhile_cons, if_neg h]

theorem dropWhile_eq_self_of_isPrefix {α : Type} {p : α → Bool} {l l' : List α}
    (hl : l.dropWhile p = l) (hpre : l' <+: l) : l'.dropWhile p = l' := by
  cases l' with
  | nil => rfl
  | cons c t =>
    obtain ⟨r, hr⟩ := hpre
    by_cases h : p c
    · exfalso
      rw [← hr, List.cons_append, List.dropWhile_cons, if_pos h] at hl
      have hle : ((t ++ r).dropWhile p).length ≤ (t ++ r).length :=
        (List.dropWhile_suffix p).sublist.length_le
      rw [hl] at hle
      simp at hle
    · rw [List.dropWhile_cons, if_neg h]

theorem trimList_idem {α : Type} (p : α → Bool) (l : List α) :
    (((((l.dropWhile p).reverse.dropWhile p).reverse.dropWhile p).reverse.dropWhile
        p).reverse)
      = ((l.dropWhile p).reverse.dropWhile p).reverse := by
  have h1 : ((l.dropWhile p).reverse.dropWhile p).reverse.dropWhile p
      = ((l.dropWhile p).reverse.dropWhile p).reverse := by
    refine dropWhile_eq_self_of_isPrefix (dropWhile_dropWhile p l) ?_
    refine List.reverse_suffix.mp ?_
    rw [List.reverse_reverse]
    exact List.dropWhile_suffix p
  rw [h1, List.reverse_reverse, dropWhile_dropWhile]

theorem jsTrim_idem (s : String) : jsTrim (jsTrim s) = jsTrim s :=
  congrArg String.mk (trimList_idem Char.isWhitespace s.data)

theorem alGet_mem {α : Type} {m : List (String × α)} {k : String} {v : α}
    (h : alGet m k = some v) : (k, v) ∈ m := by
  induction m with
  | nil => simp [alGet] at h
  | cons kv rest ih =>
    rw [alGet] at h
    by_cases hk : kv.1 = k
    · rw [if_pos hk] at h
      have hv : kv.2 = v := Option.some.inj h
      have : (k, v) = kv := by
        cases kv
        simp_all
      rw [this]
      exact List.mem_cons_self _ _
    · rw [if_neg hk] at h
      exact List.mem_cons_of_mem _ (ih h)

theorem alGet_none_not_mem {α : Type} {m : List (String × α)} {k : String}
    (h : alGet m k = none) : ∀ kv ∈ m, kv.1 ≠ k := by
  induction m with
  | nil => intro kv hkv; cases hkv
  | cons kv0 rest ih =>
    intro kv hkv
    rw [alGet] at h
    by_cases hk : kv0.1 = k
    · rw [if_pos hk] at h; cases h
    · rw [if_neg hk] at h
      rcases List.mem_cons.mp hkv with rfl | hmem
      · exact hk
      · exact ih h kv hmem

theorem alGet_of_mem {α : Type} {m : List (String × α)}
    (hnd : m.Pairwise fun a b => a.1 ≠ b.1) {k : String} {v : α}
    (hm : (k, v) ∈ m) : alGet m k = some v := by
  induction m with
  | nil => cases hm
  | cons kv rest ih =>
    rw [List.pairwise_cons] at hnd
    rw [alGet]
    rcases List.mem_cons.mp hm with heq | hmem
    · rw [← heq]
      simp
    · have hk : kv.1 ≠ k := by
        have := hnd.1 _ hmem
        simpa using this
      rw [if_neg hk]
      exact ih hnd.2 hmem

theorem mem_alSet_sub {α : Type} {m : List (String × α)} {k : String} {v : α}
    {kv : String × α} (h : kv ∈ alSet m k v) : kv ∈ m ∨ kv = (k, v) := by
  induction m with
  | nil =>
    rw [alSet] at h
    right
    simpa using h
  | cons kv0 rest ih =>
    rw [alSet] at h
    by_cases hk : kv0.1 = k
    · rw [if_pos hk] at h
      rcases List.mem_cons.mp h with rfl | hmem
      · right; rfl
      · left; exact List.mem_cons_of_mem _ hmem
    · rw [if_neg hk] at h
      rcases List.mem_cons.mp h with rfl | hmem
      · left; exact List.mem_cons_self _ _
      · rcases ih hmem with hm | he
        · left; exact List.mem_cons_of_mem _ hm
        · right; exact he

theorem alGet_alSet_self {α : Type} (m : List (String × α)) (k : String) (v : α) :
    alGet (alSet m k v) k = some v := by
  induction m with
  | nil => simp [alSet, alGet]
  | cons kv rest ih =>
    rw [alSet]
    by_cases hk : kv.1 = k
    · rw [if_pos hk, alGet, if_pos rfl]
    · rw [if_neg hk, alGet, if_neg hk]
      exact ih

theorem alGet_alSet_ne {α : Type} (m : List (String × α)) {k k' : String} (v : α)
    (h : k' ≠ k) : alGet (alSet m k v) k' = alGet m k' := by
  induction m with
  | nil =>
    simp only [alSet, alGet]
    rw [if_neg (fun he : k = k' => h he.symm)]
  | cons kv rest ih =>
    rw [alSet]
    by_cases hk : kv.1 = k
    · rw [if_pos hk, alGet, alGet]
      have : ¬ (k = k') := fun he => h he.symm
      rw [if_neg this, if_neg (hk ▸ this)]
    · rw [if_neg hk, alGet, alGet]
      by_cases hk' : kv.1 = k'
      · rw [if_pos hk', if_pos hk']
      · rw [if_neg hk', if_neg hk']
        exact ih

theorem alGet_none_alSet {α : Type} {m : List (String × α)} {k : String}
    (h : alGet m k = none) (v : α) : alSet m k v = m ++ [(k, v)] := by
  induction m with
  | nil => rfl
  | cons kv rest ih =>
    rw [alGet] at h
    by_cases hk : kv.1 = k
    · rw [if_pos hk] at h; cases h
    · rw [if_neg hk] at h
      rw [alSet, if_neg hk, List.cons_append, ih h]

theorem mem_setAdd {s : List String} {x y : String} (h : y ∈ s) : y ∈ setAdd s x := by
  rw [setAdd]
  split
  · exact h
  · exact List.mem_append_left _ h

theorem self_mem_setAdd (s : List String) (x : String) : x ∈ setAdd s x := by
  rw [setAdd]
  split
  · assumption
  · exact List.mem_append_right _ (List.mem_singleton.mpr rfl)

theorem mem_setDel {s : List String} {x y : String} (h : y ∈ s) (hne : y ≠ x) :
    y ∈ setDel s x :=
  List.mem_filter.mpr ⟨h, by simpa using hne⟩

/-- C1: computeQuestionScore returns 0 on a wrong answer; on a correct answer
with finite lockedElapsedMs it returns 20 when elapsedSeconds =
lockedElapsedMs / 1000 is at most 4 and max(0, 20 - ceil(elapsedSeconds - 4))
otherwise; and the result is a non-negative integer, for every finite
lockedElapsedMs and every (even non-finite) time budget. -/
theorem computeQuestionScore_spec :
    ∀ (m : ℚ) (ts : Option ℚ) (b : Bool),
      computeQuestionScore false (some m) ts = 0
      ∧ computeQuestionScore true (some m) ts =
          (if m / 1000 ≤ 4 then 20 else max 0 (20 - ⌈m / 1000 - 4⌉))
      ∧ 0 ≤ computeQuestionScore b (some m) ts := by
  intro m ts b
  have hmain : computeQuestionScore true (some m) ts =
      (if m / 1000 ≤ 4 then 20 else max 0 (20 - ⌈m / 1000 - 4⌉)) := by
    by_cases h : m / 1000 ≤ 4
    · simp [computeQuestionScore, h]
    · have h4 : (0 : ℚ) < m / 1000 - 4 := by
        have := not_le.mp h
        linarith
      have h5 : (4 : ℚ) < (⌈m / 1000⌉ : ℚ) :=
        lt_of_lt_of_le (by linarith) (Int.le_ceil _)
      have h6 : (4 : ℤ) < ⌈m / 1000⌉ := by exact_mod_cast h5
      have h7 : (0 : ℤ) ≤ ⌈m / 1000⌉ - 4 := by omega
      simp [computeQuestionScore, h, max_eq_right h7]
  refine ⟨rfl, hmain, ?_⟩
  cases b
  · simp [computeQuestionScore]
  · rw [hmain]
    split
    · norm_num
    · exact le_max_left 0 _

/-- logQuestionIfNeeded changes only the questionLogged guard and the
questionRunId: every other field of the state survives. -/
theorem logQuestionIfNeeded_fields (s : SessionState) (n : ℤ) :
    (logQuestionIfNeeded s n).1.phase = s.phase
    ∧ (logQuestionIfNeeded s n).1.paused = s.paused
    ∧ (logQuestionIfNeeded s n).1.accumulatedRunMs = s.accumulatedRunMs
    ∧ (logQuestionIfNeeded s n).1.startedAtMs = s.startedAtMs
    ∧ (logQuestionIfNeeded s n).1.teams = s.teams
    ∧ (logQuestionIfNeeded s n).1.claimedPins = s.claimedPins := by
  rw [logQuestionIfNeeded]
  split
  · exact ⟨rfl, rfl, rfl, rfl, rfl, rfl⟩
  · split
    · exact ⟨rfl, rfl, rfl, rfl, rfl, rfl⟩
    · split
      · exact ⟨rfl, rfl, rfl, rfl, rfl, rfl⟩
      · exact ⟨rfl, rfl, rfl, rfl, rfl, rfl⟩

/-- A pause in a running question commits the delta into the accumulator:
the new accumulator is exactly the elapsed reading at the pause instant. -/
theorem pause_facts (s : SessionState) (t1 : ℤ) (hq : s.phase = Phase.question)
    (hp : s.paused = false) :
    (pause s t1).accumulatedRunMs = getRunElapsedMs s t1
    ∧ (pause s t1).phase = Phase.question ∧ (pause s t1).paused = true := by
  rw [pause, if_neg (by simp [hq, hp])]
  refine ⟨?_, hq, rfl⟩
  rw [getRunElapsedMs, if_neg (by simp [hq]), if_neg (by simp [hp])]

/-- Reading the clock right after a resume yields the accumulator unchanged:
the wall-clock read at the resume instant cancels. -/
theorem getRunElapsedMs_resume (s : SessionState) (n : ℤ)
    (hphase : s.phase = Phase.question) (hpaused : s.paused = true) :
    getRunElapsedMs (resume s n) n = s.accumulatedRunMs := by
  obtain ⟨hph, _, hacc, _⟩ := logQuestionIfNeeded_fields s n
  rw [resume, if_neg (by simp [hphase, hpaused])]
  rw [getRunElapsedMs]
  simp [hph, hphase, hacc]

/-- C5: the run-clock reading taken at the moment of a pause equals the
reading taken at the moment of the matching resume, however much wall-clock
time passes in between: pausing commits the delta and freezes the
accumulator, so clock reads during the pause are irrelevant and repeated
pause/resume cycles neither double-count nor lose accumulated run time. -/
theorem pause_resume_roundtrip :
    ∀ (s : SessionState) (t1 t2 : ℤ),
      s.phase = Phase.question → s.paused = false →
      getRunElapsedMs (resume (pause s t1) t2) t2 = getRunElapsedMs s t1 := by
  intro s t1 t2 hq hp
  obtain ⟨hacc, hph, hpd⟩ := pause_facts s t1 hq hp
  rw [getRunElapsedMs_resume _ _ hph hpd, hacc]

/-- C5 witness: a concrete running state paused at time 150 and resumed at
time 999 reads the same elapsed 550 ms. -/
theorem pause_resume_roundtrip_witness :
    getRunElapsedMs (resume (pause c5sample 150) 999) 999 =
      getRunElapsedMs c5sample 150 :=
  pause_resume_roundtrip c5sample 150 999 rfl rfl

/-- C8: a registerHost event from any connected socket unconditionally makes
that socket the host, replacing any previous registration and changing
nothing else; there is no authentication and no notification to the
displaced host. -/
theorem registerHost_unconditional :
    ∀ (reg : List TeamInfo) (bank : List Question) (w : World) (sid : String),
      step reg bank w (.registerHost sid) =
        if sid ∈ w.connected
        then { w with state := { w.state with hostId := some sid } }
        else w := by
  intro reg bank w sid
  rfl

/-- C9: doJoinTeam always installs a fresh team whose cumulative score is 0
(both the joinTeam path and the approved-takeover path build their team
through it), and an approved takeover leaves the requester holding a team
with score 0, whatever score the pin's previous holder had accumulated. -/
theorem fresh_team_score_zero :
    (∀ (w : World) (sid pin : String) (info : TeamInfo) (ip ua : String) (now : ℤ),
        (alGet (doJoinTeam w sid pin info ip ua now).state.teams sid).map Team.score
          = some 0)
    ∧ ∀ (reg : List TeamInfo) (w : World) (sid pinRaw : String) (now : ℤ)
        (req : TakeoverReq) (info : TeamInfo),
        w.state.hostId = some sid →
        alGet w.pendingTakeovers (jsTrim pinRaw) = some req →
        req.requesterId ∈ w.connected →
        reg.find? (fun t => decide (t.pin = jsTrim pinRaw)) = some info →
        (alGet (hostApproveTakeoverHandler reg w sid pinRaw now).state.teams
            req.requesterId).map Team.score = some 0 := by
  constructor
  · intro w sid pin info ip ua now
    rw [doJoinTeam]
    rw [alGet_alSet_self]
    rfl
  · intro reg w sid pinRaw now req info hhost hreq halive hfind
    cases hct : findTeamByPin w.state (jsTrim pinRaw) with
    | none =>
      simp [hostApproveTakeoverHandler, hhost, hreq, hct, hfind, halive,
        doJoinTeam, alGet_alSet_self]
    | some t =>
      simp [hostApproveTakeoverHandler, hhost, hreq, hct, hfind, halive,
        doJoinTeam, alGet_alSet_self]

/-- C6: lockAnswer mutates the state exactly when the phase is question and
live, the caller holds a team with no lock yet, and the coerced choice is
one of 0,1,2,3; in that case it records the choice and the current
run-elapsed time on that team only, and in every other case (second lock
attempt included) it returns the state untouched, surfacing no error. -/
theorem lockAnswer_guarded :
    ∀ (reg : List TeamInfo) (bank : List Question) (w : World) (sid : String)
      (c : Option ℚ) (now : ℤ),
      step reg bank w (.lockAnswer sid c now) =
        match alGet w.state.teams sid with
        | none => w
        | some team =>
          if sid ∈ w.connected ∧ w.state.phase = Phase.question
              ∧ w.state.paused = false ∧ team.lockedChoice = none
              ∧ (c = some 0 ∨ c = some 1 ∨ c = some 2 ∨ c = some 3)
          then { w with state := { w.state with
                  teams := alSet w.state.teams sid
                             { team with
                                 lockedChoice := some (c.getD 0).num.toNat
                                 lockedAtRunMs := some (getRunElapsedMs w.state now) } } }
          else w := by
  intro reg bank w sid c now
  show fromSocket w sid (fun w => lockAnswerHandler w sid c now) = _
  rw [fromSocket]
  by_cases hconn : sid ∈ w.connected
  · rw [if_pos hconn]
    cases hteam : alGet w.state.teams sid with
    | none => simp only [lockAnswerHandler, hteam]
    | some team =>
      cases c with
      | none =>
        simp only [lockAnswerHandler, hteam]
        refine Eq.trans ?_ (if_neg (by simp)).symm
        simp
      | some q =>
        simp only [lockAnswerHandler, hteam]
        by_cases hph : w.state.phase = Phase.question
        · by_cases hpa : w.state.paused = true
          · refine Eq.trans ?_ (if_neg (by simp [hpa])).symm
            simp [hph, hpa]
          · have hpa' : w.state.paused = false := by
              cases hx : w.state.paused
              · rfl
              · exact absurd hx hpa
            cases hlc : team.lockedChoice with
            | some v =>
              refine Eq.trans ?_ (if_neg (by simp [hlc])).symm
              simp [hph, hpa', hlc]
            | none =>
              by_cases hq4 : q = 0 ∨ q = 1 ∨ q = 2 ∨ q = 3
              · have hcond : sid ∈ w.connected ∧ w.state.phase = Phase.question
                    ∧ w.state.paused = false ∧ (none : Option ℕ) = none
                    ∧ ((some q : Option ℚ) = some 0 ∨ (some q : Option ℚ) = some 1
                        ∨ (some q : Option ℚ) = some 2
                        ∨ (some q : Option ℚ) = some 3) := by
                  refine ⟨hconn, hph, hpa', rfl, ?_⟩
                  rcases hq4 with h | h | h | h <;> simp [h]
                refine Eq.trans ?_ (if_pos hcond).symm
                rw [if_neg (by simp [hph]), if_neg (by simp [hpa']),
                  if_neg (by simp), if_pos hq4]
                rfl
              · have hncond : ¬ (sid ∈ w.connected ∧ w.state.phase = Phase.question
                    ∧ w.state.paused = false ∧ (none : Option ℕ) = none
                    ∧ ((some q : Option ℚ) = some 0 ∨ (some q : Option ℚ) = some 1
                        ∨ (some q : Option ℚ) = some 2
                        ∨ (some q : Option ℚ) = some 3)) := by
                  rintro ⟨-, -, -, -, h | h | h | h⟩ <;> exact hq4 (by simp_all)
                refine Eq.trans ?_ (if_neg hncond).symm
                simp [hph, hpa', hq4]
        · refine Eq.trans ?_ (if_neg (by simp [hph])).symm
          simp [hph]
  · rw [if_neg hconn]
    cases halg : alGet w.state.teams sid with
    | none => rfl
    | some team => simp [hconn]

/-- C3 counterexample: hostStart is not guarded by the lobby phase. In a
reachable state whose phase is revealed, a hostStart from the registered
host does not leave the state unchanged: it restarts the run and moves the
phase back to question. -/
theorem hostStart_cex :
    c3world.state.phase = Phase.revealed
    ∧ (step sampleRegistry [sampleQuestion] c3world
          (.hostStart "h" zeroRnd2 zeroRnd)).state.phase = Phase.question := by
  constructor
  · decide
  · decide

/-- C3 amended: hostStart from the registered host works from any phase, not
only from the lobby. It is ignored for a non-host or disconnected caller; it
changes nothing (only signalling a host-visible configuration error) when
the loaded question bank is empty; otherwise, whatever the current phase, it
builds the question run from the bank with the configured shuffles and
enters question at index 0, paused, with the run clock zeroed, the
per-question log guard reset and every team's answer fields cleared. -/
theorem hostStart_amended :
    ∀ (reg : List TeamInfo) (bank : List Question) (w : World) (sid : String)
      (rc : ℕ → ℕ → ℕ) (rq : ℕ → ℕ),
      (¬ (sid ∈ w.connected ∧ w.state.hostId = some sid) →
          step reg bank w (.hostStart sid rc rq) = w)
      ∧ (sid ∈ w.connected ∧ w.state.hostId = some sid ∧ bank = [] →
          step reg bank w (.hostStart sid rc rq) = w)
      ∧ (sid ∈ w.connected ∧ w.state.hostId = some sid ∧ bank ≠ [] →
          (step reg bank w (.hostStart sid rc rq)).state.phase = Phase.question
          ∧ (step reg bank w (.hostStart sid rc rq)).state.qIndex = 0
          ∧ (step reg bank w (.hostStart sid rc rq)).state.paused = true
          ∧ (step reg bank w (.hostStart sid rc rq)).state.accumulatedRunMs = 0
          ∧ (step reg bank w (.hostStart sid rc rq)).state.startedAtMs = 0
          ∧ (step reg bank w (.hostStart sid rc rq)).state.questionLogged = false
          ∧ (step reg bank w (.hostStart sid rc rq)).state.gameQuestions
              = some (buildGameQuestions bank rc rq w.state.shuffleQuestions
                  w.state.shuffleChoices)
          ∧ (step reg bank w (.hostStart sid rc rq)).state.teams
              = w.state.teams.map fun kv => (kv.1, clearTeamAnswers kv.2)) := by
  intro reg bank w sid rc rq
  refine ⟨?_, ?_, ?_⟩
  · intro h
    show fromSocket w sid (fun w => hostStartHandler bank w sid rc rq) = w
    rw [fromSocket]
    by_cases hc : sid ∈ w.connected
    · rw [if_pos hc, hostStartHandler,
        if_pos (show w.state.hostId ≠ some sid from fun hb => h ⟨hc, hb⟩)]
    · rw [if_neg hc]
  · rintro ⟨hc, hh, hb⟩
    show fromSocket w sid (fun w => hostStartHandler bank w sid rc rq) = w
    rw [fromSocket, if_pos hc, hostStartHandler, if_neg (by simp [hh]),
      if_pos (by simp [hb])]
  · rintro ⟨hc, hh, hb⟩
    have hstep : step reg bank w (.hostStart sid rc rq) =
        { w with
            state :=
              startQuestion
                { w.state with
                    gameQuestions := some (buildGameQuestions bank rc rq
                      w.state.shuffleQuestions w.state.shuffleChoices) } 0 } := by
      show fromSocket w sid (fun w => hostStartHandler bank w sid rc rq) = _
      rw [fromSocket, if_pos hc, hostStartHandler, if_neg (by simp [hh]),
        if_neg (by simp [hb])]
    rw [hstep]
    exact ⟨rfl, rfl, rfl, rfl, rfl, rfl, rfl, rfl⟩

/-- C7: the non-manual reveal path issues its totals-sync and answer-log
side effects twice each (lines 396-400 of server.js repeat the pair), where
one answer-log and one totals-sync per reveal is the required behaviour. -/
theorem reveal_effects_duplicated :
    (revealAnswerFx c7sample 1000).2
      = [Effect.syncTotals, Effect.logAnswers, Effect.syncTotals, Effect.logAnswers]
    ∧ (revealAnswerFx c7sample 1000).2.count Effect.logAnswers = 2
    ∧ (revealAnswerFx c7sample 1000).2.count Effect.syncTotals = 2 := by
  refine ⟨?_, ?_, ?_⟩ <;> decide

/-- C10: hostReset replaces the entire session state: afterwards the teams,
claimed pins, pending requests, display set and the host registration are
all empty, so host-only commands from the very connection that issued the
reset are ignored until it registers as host again (and registering again
does restore the role). -/
theorem reset_clears_roles :
    ∀ (reg : List TeamInfo) (bank : List Question) (w : World) (sid : String)
      (gid n2 : ℤ) (rc : ℕ → ℕ → ℕ) (rq : ℕ → ℕ) (w' : World),
      w.state.hostId = some sid → sid ∈ w.connected →
      w' = step reg bank w (.hostReset sid gid) →
      w'.state = resetState gid
      ∧ w'.pendingTakeovers = []
      ∧ w'.connected = w.connected
      ∧ step reg bank w' (.hostStart sid rc rq) = w'
      ∧ step reg bank w' (.hostPauseToggle sid n2) = w'
      ∧ step reg bank w' (.hostReveal sid n2) = w'
      ∧ step reg bank w' (.hostNext sid) = w'
      ∧ (step reg bank w' (.registerHost sid)).state.hostId = some sid := by
  intro reg bank w sid gid n2 rc rq w' hh hc hw'
  have hstep : step reg bank w (.hostReset sid gid) =
      { state := resetState gid, pendingTakeovers := [], connected := w.connected } := by
    show fromSocket w sid (fun w => hostResetHandler w sid gid) = _
    rw [fromSocket, if_pos hc, hostResetHandler, if_neg (by simp [hh])]
  rw [hstep] at hw'
  subst hw'
  refine ⟨rfl, rfl, rfl, ?_, ?_, ?_, ?_, ?_⟩
  · simp only [step]
    rw [fromSocket, if_pos hc, hostStartHandler, if_pos (by simp [resetState])]
  · simp only [step]
    rw [fromSocket, if_pos hc, hostPauseToggleHandler, if_pos (by simp [resetState])]
  · simp only [step]
    rw [fromSocket, if_pos hc, hostRevealHandler, if_pos (by simp [resetState])]
  · simp only [step]
    rw [fromSocket, if_pos hc, hostNextHandler, if_pos (by simp [resetState])]
  · simp only [step]
    rw [fromSocket, if_pos hc]

/-- C10 witness: resetting the concrete hosted lobby world wipes the state
to a fresh session. -/
theorem reset_clears_roles_witness :
    (step [] [] c10sample (.hostReset "h" 7)).state = resetState 7 :=
  (reset_clears_roles [] [] c10sample "h" 7 0 zeroRnd2 zeroRnd _ rfl
    (by decide) rfl).1

theorem foldl_inv (reg : List TeamInfo) (bank : List Question) (P : World → Prop)
    (hstep : ∀ w e, P w → P (step reg bank w e)) :
    ∀ (es : List Event) (w : World), P w → P (es.foldl (step reg bank) w) := by
  intro es
  induction es with
  | nil => intro w hw; exact hw
  | cons e t ih => intro w hw; exact ih _ (hstep _ _ hw)

theorem kickTeamSocket_pp (w : World) (t : Team) :
    (kickTeamSocket w t).state.phase = w.state.phase
    ∧ (kickTeamSocket w t).state.paused = w.state.paused := by
  simp only [kickTeamSocket]
  split <;> exact ⟨rfl, rfl⟩

theorem joinTeamHandler_pp (reg : List TeamInfo) (w : World) (sid p ip ua : String)
    (now : ℤ) :
    (joinTeamHandler reg w sid p ip ua now).state.phase = w.state.phase
    ∧ (joinTeamHandler reg w sid p ip ua now).state.paused = w.state.paused := by
  simp only [joinTeamHandler]
  split
  · exact ⟨rfl, rfl⟩
  · split
    · exact ⟨rfl, rfl⟩
    · split
      · exact ⟨rfl, rfl⟩
      · exact ⟨rfl, rfl⟩

theorem hostKickTeamHandler_pp (w : World) (sid : String) (teamId pin : Option String) :
    (hostKickTeamHandler w sid teamId pin).state.phase = w.state.phase
    ∧ (hostKickTeamHandler w sid teamId pin).state.paused = w.state.paused := by
  simp only [hostKickTeamHandler]
  split
  · exact ⟨rfl, rfl⟩
  · split
    · exact ⟨rfl, rfl⟩
    · exact ⟨(kickTeamSocket_pp _ _).1, (kickTeamSocket_pp _ _).2⟩

theorem hostApproveTakeoverHandler_pp (reg : List TeamInfo) (w : World)
    (sid pinRaw : String) (now : ℤ) :
    (hostApproveTakeoverHandler reg w sid pinRaw now).state.phase = w.state.phase
    ∧ (hostApproveTakeoverHandler reg w sid pinRaw now).state.paused
        = w.state.paused := by
  simp only [hostApproveTakeoverHandler]
  repeat' split
  all_goals
    first
      | exact ⟨rfl, rfl⟩
      | exact ⟨(kickTeamSocket_pp _ _).1, (kickTeamSocket_pp _ _).2⟩

theorem hostDenyTakeoverHandler_pp (w : World) (sid pinRaw : String) :
    (hostDenyTakeoverHandler w sid pinRaw).state.phase = w.state.phase
    ∧ (hostDenyTakeoverHandler w sid pinRaw).state.paused = w.state.paused := by
  simp only [hostDenyTakeoverHandler]
  repeat' split
  all_goals exact ⟨rfl, rfl⟩

theorem lockAnswerHandler_pp (w : World) (sid : String) (c : Option ℚ) (now : ℤ) :
    (lockAnswerHandler w sid c now).state.phase = w.state.phase
    ∧ (lockAnswerHandler w sid c now).state.paused = w.state.paused := by
  simp only [lockAnswerHandler]
  repeat' split
  all_goals exact ⟨rfl, rfl⟩

theorem hostSetShuffleHandler_pp (w : World) (sid : String) (sq sc : Option Bool) :
    (hostSetShuffleHandler w sid sq sc).state.phase = w.state.phase
    ∧ (hostSetShuffleHandler w sid sq sc).state.paused = w.state.paused := by
  simp only [hostSetShuffleHandler]
  repeat' split
  all_goals exact ⟨rfl, rfl⟩

theorem hostAdjustScoreHandler_pp (w : World) (sid tid : String) (d : Option ℚ) :
    (hostAdjustScoreHandler w sid tid d).state.phase = w.state.phase
    ∧ (hostAdjustScoreHandler w sid tid d).state.paused = w.state.paused := by
  simp only [hostAdjustScoreHandler]
  repeat' split
  all_goals exact ⟨rfl, rfl⟩

theorem startQuestion_inv (s : SessionState) (i : ℤ) :
    (startQuestion s i).phase = Phase.question := rfl

theorem resume_inv (s : SessionState) (now : ℤ)
    (h : s.phase = Phase.question ∨ s.paused = true) :
    (resume s now).phase = Phase.question ∨ (resume s now).paused = true := by
  by_cases hg : s.phase ≠ Phase.question ∨ s.paused = false
  · rw [resume, if_pos hg]
    exact h
  · push_neg at hg
    left
    rw [resume, if_neg (by simp [hg.1, hg.2])]
    show (logQuestionIfNeeded s now).1.phase = Phase.question
    rw [(logQuestionIfNeeded_fields s now).1, hg.1]

theorem pause_inv (s : SessionState) (now : ℤ)
    (h : s.phase = Phase.question ∨ s.paused = true) :
    (pause s now).phase = Phase.question ∨ (pause s now).paused = true := by
  by_cases hg : s.phase ≠ Phase.question ∨ s.paused = true
  · rw [pause, if_pos hg]
    exact h
  · rw [pause, if_neg hg]
    right
    rfl

theorem revealAnswerFx_paused (s : SessionState) (now : ℤ)
    (h : s.phase = Phase.question) :
    (revealAnswerFx s now).1.paused = true := by
  rw [revealAnswerFx, if_neg (by simp [h])]
  split
  all_goals
    dsimp only
    split
    · rfl
    · split
      · simp [logQuestionIfNeeded_fields]
      · simp [logQuestionIfNeeded_fields]

theorem revealAnswer_inv (s : SessionState) (now : ℤ)
    (h : s.phase = Phase.question ∨ s.paused = true) :
    (revealAnswer s now).phase = Phase.question ∨ (revealAnswer s now).paused = true := by
  by_cases hq : s.phase = Phase.question
  · right
    exact revealAnswerFx_paused s now hq
  · rw [revealAnswer, revealAnswerFx, if_pos (by simp [hq])]
    exact h

theorem showLeaderboard_inv (s : SessionState)
    (h : s.phase = Phase.question ∨ s.paused = true) :
    (showLeaderboard s).phase = Phase.question ∨ (showLeaderboard s).paused = true := by
  by_cases hg : s.phase ≠ Phase.revealed
  · rw [showLeaderboard, if_pos hg]
    exact h
  · rw [showLeaderboard, if_neg hg]
    right
    rfl

theorem nextQuestion_inv (s : SessionState) :
    (nextQuestion s).phase = Phase.question ∨ (nextQuestion s).paused = true := by
  rw [nextQuestion]
  split
  · right; rfl
  · left; rfl

theorem step_pausedInv (reg : List TeamInfo) (bank : List Question) (w : World)
    (e : Event) (h : PausedInv w) : PausedInv (step reg bank w e) := by
  have frame : ∀ (w' : World), w'.state.phase = w.state.phase →
      w'.state.paused = w.state.paused → PausedInv w' := by
    intro w' h1 h2
    rw [PausedInv, h1, h2]
    exact h
  cases e with
  | connect sid =>
    simp only [step]
    split
    · exact h
    · exact h
  | disconnect sid =>
    simp only [step]
    split
    · exact frame _ rfl rfl
    · exact h
  | registerHost sid =>
    simp only [step, fromSocket]
    split
    · exact frame _ rfl rfl
    · exact h
  | registerProjector sid =>
    simp only [step, fromSocket]
    split
    · exact frame _ rfl rfl
    · exact h
  | joinTeam sid p ip ua now =>
    simp only [step, fromSocket]
    split
    · exact frame _ (joinTeamHandler_pp _ _ _ _ _ _ _).1 (joinTeamHandler_pp _ _ _ _ _ _ _).2
    · exact h
  | hostKickTeam sid tid p =>
    simp only [step, fromSocket]
    split
    · exact frame _ (hostKickTeamHandler_pp _ _ _ _).1 (hostKickTeamHandler_pp _ _ _ _).2
    · exact h
  | hostApproveTakeover sid p now =>
    simp only [step, fromSocket]
    split
    · exact frame _ (hostApproveTakeoverHandler_pp _ _ _ _ _).1
        (hostApproveTakeoverHandler_pp _ _ _ _ _).2
    · exact h
  | hostDenyTakeover sid p =>
    simp only [step, fromSocket]
    split
    · exact frame _ (hostDenyTakeoverHandler_pp _ _ _).1 (hostDenyTakeoverHandler_pp _ _ _).2
    · exact h
  | lockAnswer sid c now =>
    simp only [step, fromSocket]
    split
    · exact frame _ (lockAnswerHandler_pp _ _ _ _).1 (lockAnswerHandler_pp _ _ _ _).2
    · exact h
  | hostReset sid gid =>
    simp only [step, fromSocket]
    split
    · rw [hostResetHandler]
      split
      · exact h
      · right; rfl
    · exact h
  | hostSetShuffle sid sq sc =>
    simp only [step, fromSocket]
    split
    · exact frame _ (hostSetShuffleHandler_pp _ _ _ _).1 (hostSetShuffleHandler_pp _ _ _ _).2
    · exact h
  | hostSetManualScoring sid b =>
    simp only [step, fromSocket]
    split
    · by_cases hh : w.state.hostId ≠ some sid
      · rw [hostSetManualScoringHandler, if_pos hh]
        exact h
      · rw [hostSetManualScoringHandler, if_neg hh]
        exact frame _ rfl rfl
    · exact h
  | hostAdjustScore sid tid d =>
    simp only [step, fromSocket]
    split
    · exact frame _ (hostAdjustScoreHandler_pp _ _ _ _).1 (hostAdjustScoreHandler_pp _ _ _ _).2
    · exact h
  | hostStart sid rc rq =>
    simp only [step, fromSocket]
    split
    · rw [hostStartHandler]
      split
      · exact h
      · split
        · exact h
        · left
          exact startQuestion_inv _ _
    · exact h
  | hostPauseToggle sid now =>
    simp only [step, fromSocket]
    split
    · rw [hostPauseToggleHandler]
      split
      · exact h
      · split
        · exact h
        · split
          · exact resume_inv _ _ h
          · exact pause_inv _ _ h
    · exact h
  | hostReveal sid now =>
    simp only [step, fromSocket]
    split
    · rw [hostRevealHandler]
      split
      · exact h
      · split
        · exact h
        · exact revealAnswer_inv _ _ h
    · exact h
  | hostNext sid =>
    simp only [step, fromSocket]
    split
    · rw [hostNextHandler]
      split
      · exact h
      · split
        · exact showLeaderboard_inv _ h
        · split
          · exact nextQuestion_inv _
          · exact h
    · exact h
  | tick now =>
    simp only [step, tickStep]
    split
    · exact h
    · split
      · exact h
      · split
        · split
          · exact revealAnswer_inv _ _ h
          · exact h
        · exact h

/-- C4: in every state reachable from boot by any event trace, the phase is
one of lobby, question, revealed, leaderboard, finished, and the session is
paused whenever the phase is not question; every operation of the state
machine preserves this. -/
theorem phase_paused_invariant :
    ∀ (reg : List TeamInfo) (bank : List Question) (gid : ℤ) (es : List Event),
      ((runEvents reg bank gid es).state.phase = Phase.lobby
        ∨ (runEvents reg bank gid es).state.phase = Phase.question
        ∨ (runEvents reg bank gid es).state.phase = Phase.revealed
        ∨ (runEvents reg bank gid es).state.phase = Phase.leaderboard
        ∨ (runEvents reg bank gid es).state.phase = Phase.finished)
      ∧ ((runEvents reg bank gid es).state.phase ≠ Phase.question →
          (runEvents reg bank gid es).state.paused = true) := by
  intro reg bank gid es
  constructor
  · cases (runEvents reg bank gid es).state.phase <;> simp
  · have h : PausedInv (runEvents reg bank gid es) := by
      rw [runEvents]
      exact foldl_inv reg bank PausedInv (step_pausedInv reg bank) es
        (initWorld gid) (Or.inr rfl)
    intro hne
    rcases h with h | h
    · exact absurd h hne
    · exact h

theorem teamsOK_pin_distinct {m : List (String × Team)} (h : TeamsOK m)
    {k1 k2 : String} {t1 t2 : Team} (h1 : (k1, t1) ∈ m) (h2 : (k2, t2) ∈ m)
    (hne : k1 ≠ k2) : t1.pin ≠ t2.pin := by
  have hsymm : Symmetric
      (fun (a b : String × Team) => a.1 ≠ b.1 ∧ a.2.pin ≠ b.2.pin) := by
    intro a b hab
    exact ⟨hab.1.symm, hab.2.symm⟩
  have hpair : (k1, t1) ≠ (k2, t2) := by
    intro he
    exact hne (congrArg Prod.fst he)
  exact (List.Pairwise.forall hsymm h h1 h2 hpair).2

theorem teamsOK_filter {m : List (String × Team)} (h : TeamsOK m)
    (p : String × Team → Bool) : TeamsOK (m.filter p) :=
  List.Pairwise.sublist (List.filter_sublist m) h

theorem teamsOK_map {m : List (String × Team)} (f : Team → Team)
    (hpin : ∀ t, (f t).pin = t.pin) (h : TeamsOK m) :
    TeamsOK (m.map fun kv => (kv.1, f kv.2)) := by
  rw [TeamsOK, List.pairwise_map]
  refine h.imp ?_
  intro a b hab
  refine ⟨hab.1, ?_⟩
  show (f a.2).pin ≠ (f b.2).pin
  rw [hpin, hpin]
  exact hab.2

theorem teamsOK_alSet {m : List (String × Team)} {k : String} {v : Team}
    (hOK : TeamsOK m) (hfree : ∀ kv ∈ m, kv.1 ≠ k → kv.2.pin ≠ v.pin) :
    TeamsOK (alSet m k v) := by
  induction m with
  | nil =>
    rw [alSet]
    exact List.pairwise_singleton _ _
  | cons kv rest ih =>
    rw [TeamsOK, List.pairwise_cons] at hOK
    rw [alSet]
    by_cases hk : kv.1 = k
    · rw [if_pos hk]
      rw [TeamsOK, List.pairwise_cons]
      constructor
      · intro b hb
        refine ⟨?_, ?_⟩
        · show k ≠ b.1
          rw [← hk]
          exact (hOK.1 b hb).1
        · show v.pin ≠ b.2.pin
          have hbk : b.1 ≠ k := by
            rw [← hk]
            exact (hOK.1 b hb).1.symm
          exact (hfree b (List.mem_cons_of_mem _ hb) hbk).symm
      · exact hOK.2
    · rw [if_neg hk]
      rw [TeamsOK, List.pairwise_cons]
      constructor
      · intro b hb
        rcases mem_alSet_sub hb with hbm | hbe
        · exact hOK.1 b hbm
        · rw [hbe]
          exact ⟨hk, hfree kv (List.mem_cons_self _ _) hk⟩
      · exact ih hOK.2 fun kv2 h2 => hfree kv2 (List.mem_cons_of_mem _ h2)

theorem tiedL_filter {teams : List (String × Team)} {claimed : List String}
    (h : TeamsTiedL teams claimed) (p : String × Team → Bool) :
    TeamsTiedL (teams.filter p) claimed :=
  fun kv hkv => h kv (List.mem_filter.mp hkv).1

theorem tiedL_claimed_mono {teams : List (String × Team)} {claimed claimed' : List String}
    (h : TeamsTiedL teams claimed) (hsub : ∀ x ∈ claimed, x ∈ claimed') :
    TeamsTiedL teams claimed' :=
  fun kv hkv => ⟨hsub _ (h kv hkv).1, (h kv hkv).2⟩

theorem tiedL_map {teams : List (String × Team)} {claimed : List String}
    (f : Team → Team) (hf : ∀ t, (f t).pin = t.pin ∧ (f t).id = t.id)
    (h : TeamsTiedL teams claimed) :
    TeamsTiedL (teams.map fun kv => (kv.1, f kv.2)) claimed := by
  intro kv hkv
  obtain ⟨kv0, hkv0, rfl⟩ := List.mem_map.mp hkv
  constructor
  · show (f kv0.2).pin ∈ claimed
    rw [(hf kv0.2).1]
    exact (h kv0 hkv0).1
  · show (f kv0.2).id = kv0.1
    rw [(hf kv0.2).2]
    exact (h kv0 hkv0).2

theorem tiedL_del {teams : List (String × Team)} {claimed : List String}
    {k0 p0 : String} (h : TeamsTiedL teams claimed)
    (hfree : ∀ kv ∈ teams, kv.1 ≠ k0 → kv.2.pin ≠ p0) :
    TeamsTiedL (alDel teams k0) (setDel claimed p0) := by
  intro kv hkv
  rw [alDel] at hkv
  have h1 := List.mem_filter.mp hkv
  have hne : kv.1 ≠ k0 := by simpa using h1.2
  exact ⟨mem_setDel (h kv h1.1).1 (hfree kv h1.1 hne), (h kv h1.1).2⟩

theorem tiedL_alSet {teams : List (String × Team)} {claimed : List String}
    {sid : String} {team : Team} (h : TeamsTiedL teams claimed)
    (hid : team.id = sid) (hpin : team.pin ∈ claimed) :
    TeamsTiedL (alSet teams sid team) claimed := by
  intro kv hkv
  rcases mem_alSet_sub hkv with hm | he
  · exact h kv hm
  · rw [he]
    exact ⟨hpin, hid⟩

theorem findTeamByPin_mem {s : SessionState} {p : String} {t : Team}
    (h : findTeamByPin s p = some t) : ∃ k, (k, t) ∈ s.teams := by
  rw [findTeamByPin] at h
  have hmem := List.mem_of_find?_eq_some h
  obtain ⟨kv, hkv, hsnd⟩ := List.mem_map.mp hmem
  refine ⟨kv.1, ?_⟩
  rw [← hsnd]
  exact hkv

theorem findTeamByPin_pin {s : SessionState} {p : String} {t : Team}
    (h : findTeamByPin s p = some t) : t.pin = jsTrim p := by
  have := List.find?_some h
  simpa using this

theorem findTeamByPin_none {s : SessionState} {p : String}
    (h : findTeamByPin s p = none) : ∀ kv ∈ s.teams, kv.2.pin ≠ jsTrim p := by
  intro kv hkv
  rw [findTeamByPin] at h
  have := List.find?_eq_none.mp h kv.2 (List.mem_map_of_mem Prod.snd hkv)
  simpa using this

theorem doJoinTeam_inv (w : World) (sid pin : String) (info : TeamInfo)
    (ip ua : String) (now : ℤ) (hInv : InvTeams w)
    (hfree : ∀ kv ∈ w.state.teams, kv.1 ≠ sid → kv.2.pin ≠ pin) :
    InvTeams (doJoinTeam w sid pin info ip ua now) := by
  constructor
  · exact teamsOK_alSet hInv.1 hfree
  · refine tiedL_alSet ?_ rfl (self_mem_setAdd _ _)
    exact tiedL_claimed_mono hInv.2 fun x hx => mem_setAdd hx

theorem disconnectCleanup_inv (w : World) (sid : String) (hInv : InvTeams w) :
    InvTeams (disconnectCleanup w sid)
    ∧ ∀ kv ∈ (disconnectCleanup w sid).state.teams,
        kv ∈ w.state.teams ∧ kv.1 ≠ sid := by
  cases halg : alGet w.state.teams sid with
  | none =>
    simp only [disconnectCleanup, halg]
    refine ⟨⟨hInv.1, hInv.2⟩, ?_⟩
    intro kv hkv
    exact ⟨hkv, alGet_none_not_mem halg kv hkv⟩
  | some team =>
    simp only [disconnectCleanup, halg]
    have hmem : (sid, team) ∈ w.state.teams := alGet_mem halg
    have hfree : ∀ kv ∈ w.state.teams, kv.1 ≠ sid → kv.2.pin ≠ team.pin := by
      intro kv hkv hne
      exact teamsOK_pin_distinct hInv.1 hkv hmem hne
    refine ⟨⟨teamsOK_filter hInv.1 _, tiedL_del hInv.2 hfree⟩, ?_⟩
    intro kv hkv
    have h1 := List.mem_filter.mp hkv
    exact ⟨h1.1, by simpa using h1.2⟩

theorem kickTeamSocket_inv (w : World) (t : Team) (hInv : InvTeams w)
    (hmem : (t.id, t) ∈ w.state.teams) :
    InvTeams (kickTeamSocket w t)
    ∧ ∀ kv ∈ (kickTeamSocket w t).state.teams,
        kv ∈ w.state.teams ∧ kv.1 ≠ t.id := by
  have hfree : ∀ kv ∈ w.state.teams, kv.1 ≠ t.id → kv.2.pin ≠ t.pin := by
    intro kv hkv hne
    exact teamsOK_pin_distinct hInv.1 hkv hmem hne
  simp only [kickTeamSocket]
  split
  · have h1 := disconnectCleanup_inv
      { w with connected := setDel w.connected t.id } t.id
      ⟨hInv.1, hInv.2⟩
    refine ⟨⟨teamsOK_filter h1.1.1 _, ?_⟩, ?_⟩
    · refine tiedL_del h1.1.2 ?_
      intro kv hkv hne
      exact hfree kv (h1.2 kv hkv).1 hne
    · intro kv hkv
      have h2 := List.mem_filter.mp hkv
      exact ⟨(h1.2 kv h2.1).1, by simpa using h2.2⟩
  · refine ⟨⟨teamsOK_filter hInv.1 _, tiedL_del hInv.2 hfree⟩, ?_⟩
    intro kv hkv
    have h2 := List.mem_filter.mp hkv
    exact ⟨h2.1, by simpa using h2.2⟩

theorem joinTeamHandler_inv (reg : List TeamInfo) (w : World)
    (sid p ip ua : String) (now : ℤ) (hInv : InvTeams w) :
    InvTeams (joinTeamHandler reg w sid p ip ua now) := by
  rw [joinTeamHandler]
  cases hfind : reg.find? (fun t => decide (t.pin = jsTrim p)) with
  | none => exact hInv
  | some info =>
    dsimp only
    by_cases hjoined : (alGet w.state.teams sid).isSome
    · rw [if_pos hjoined]
      exact hInv
    · rw [if_neg hjoined]
      by_cases hclaimed : jsTrim p ∈ w.state.claimedPins
      · rw [if_pos hclaimed]
        exact ⟨hInv.1, hInv.2⟩
      · rw [if_neg hclaimed]
        refine doJoinTeam_inv _ _ _ info ip ua now hInv ?_
        intro kv hkv hne he
        exact hclaimed (he ▸ (hInv.2 kv hkv).1)

theorem hostKickTeamHandler_inv (w : World) (sid : String)
    (teamId pin : Option String) (hInv : InvTeams w) :
    InvTeams (hostKickTeamHandler w sid teamId pin) := by
  by_cases hh : w.state.hostId ≠ some sid
  · rw [hostKickTeamHandler.eq_def, if_pos hh]
    exact hInv
  · rw [hostKickTeamHandler.eq_def, if_neg hh]
    cases teamId with
    | some tid =>
      dsimp only
      cases halg : alGet w.state.teams tid with
      | none => exact hInv
      | some t =>
        have h0 := alGet_mem halg
        have hmem : (t.id, t) ∈ w.state.teams := by
          rw [(hInv.2 _ h0).2]
          exact h0
        exact (kickTeamSocket_inv
          { w with pendingTakeovers :=
            clearPendingTakeoverForPin w.pendingTakeovers t.pin none } t
          ⟨hInv.1, hInv.2⟩ hmem).1
    | none =>
      cases pin with
      | none => exact hInv
      | some p =>
        dsimp only
        cases hft : findTeamByPin w.state p with
        | none => exact hInv
        | some t =>
          obtain ⟨k, hk⟩ := findTeamByPin_mem hft
          have hmem : (t.id, t) ∈ w.state.teams := by
            rw [(hInv.2 _ hk).2]
            exact hk
          exact (kickTeamSocket_inv
            { w with pendingTakeovers :=
              clearPendingTakeoverForPin w.pendingTakeovers t.pin none } t
            ⟨hInv.1, hInv.2⟩ hmem).1

theorem hostApproveTakeoverHandler_inv (reg : List TeamInfo) (w : World)
    (sid pinRaw : String) (now : ℤ) (hInv : InvTeams w) :
    InvTeams (hostApproveTakeoverHandler reg w sid pinRaw now) := by
  by_cases hh : w.state.hostId ≠ some sid
  · rw [hostApproveTakeoverHandler, if_pos hh]
    exact hInv
  · rw [hostApproveTakeoverHandler, if_neg hh]
    dsimp only
    cases hreq : alGet w.pendingTakeovers (jsTrim pinRaw) with
    | none => exact hInv
    | some req =>
      dsimp only
      cases hct : findTeamByPin w.state (jsTrim pinRaw) with
      | some t =>
        obtain ⟨k, hk⟩ := findTeamByPin_mem hct
        have hmem : (t.id, t) ∈ w.state.teams := by
          rw [(hInv.2 _ hk).2]
          exact hk
        have hkick := kickTeamSocket_inv w t hInv hmem
        have htpin : t.pin = jsTrim pinRaw := by
          rw [findTeamByPin_pin hct, jsTrim_idem]
        have hnop : ∀ kv ∈ (kickTeamSocket w t).state.teams,
            kv.2.pin ≠ jsTrim pinRaw := by
          intro kv hkv
          obtain ⟨hkvm, hkvne⟩ := hkick.2 kv hkv
          have := teamsOK_pin_distinct hInv.1 hkvm hmem hkvne
          rw [htpin] at this
          exact this
        by_cases halive : req.requesterId ∈ w.connected
        · rw [if_pos halive]
          cases hfind : reg.find? (fun ti => decide (ti.pin = jsTrim pinRaw)) with
          | none => exact ⟨hkick.1.1, hkick.1.2⟩
          | some info =>
            have hInv2 : InvTeams { kickTeamSocket w t with
                state := { (kickTeamSocket w t).state with
                  claimedPins := setDel (kickTeamSocket w t).state.claimedPins
                    (jsTrim pinRaw) } } := by
              refine ⟨hkick.1.1, ?_⟩
              intro kv hkv
              exact ⟨mem_setDel (hkick.1.2 kv hkv).1 (hnop kv hkv),
                (hkick.1.2 kv hkv).2⟩
            have hjoin := doJoinTeam_inv _ req.requesterId (jsTrim pinRaw) info
              req.ip req.userAgent now hInv2 (fun kv hkv hne => hnop kv hkv)
            exact ⟨hjoin.1, hjoin.2⟩
        · rw [if_neg halive]
          exact ⟨hkick.1.1, hkick.1.2⟩
      | none =>
        have hnop : ∀ kv ∈ w.state.teams, kv.2.pin ≠ jsTrim pinRaw := by
          intro kv hkv
          have := findTeamByPin_none hct kv hkv
          rw [jsTrim_idem] at this
          exact this
        have hInv2 : InvTeams { w with
            state := { w.state with
              claimedPins := setDel w.state.claimedPins (jsTrim pinRaw) } } := by
          refine ⟨hInv.1, ?_⟩
          intro kv hkv
          exact ⟨mem_setDel (hInv.2 kv hkv).1 (hnop kv hkv), (hInv.2 kv hkv).2⟩
        by_cases halive : req.requesterId ∈ w.connected
        · rw [if_pos halive]
          cases hfind : reg.find? (fun ti => decide (ti.pin = jsTrim pinRaw)) with
          | none => exact hInv2
          | some info =>
            have hInv3 : InvTeams { w with
                state := { w.state with
                  claimedPins := setDel (setDel w.state.claimedPins (jsTrim pinRaw))
                    (jsTrim pinRaw) } } := by
              refine ⟨hInv2.1, ?_⟩
              intro kv hkv
              exact ⟨mem_setDel (hInv2.2 kv hkv).1 (hnop kv hkv), (hInv2.2 kv hkv).2⟩
            have hjoin := doJoinTeam_inv _ req.requesterId (jsTrim pinRaw) info
              req.ip req.userAgent now hInv3 (fun kv hkv hne => hnop kv hkv)
            exact ⟨hjoin.1, hjoin.2⟩
        · rw [if_neg halive]
          exact hInv2

theorem lockAnswerHandler_inv (w : World) (sid : String) (c : Option ℚ) (now : ℤ)
    (hInv : InvTeams w) : InvTeams (lockAnswerHandler w sid c now) := by
  cases hteam : alGet w.state.teams sid with
  | none =>
    simp only [lockAnswerHandler, hteam]
    exact hInv
  | some team =>
    simp only [lockAnswerHandler, hteam]
    repeat' split
    any_goals exact hInv
    refine ⟨teamsOK_alSet hInv.1 ?_, tiedL_alSet hInv.2 ?_ ?_⟩
    · intro kv hkv hne
      show kv.2.pin ≠ team.pin
      exact teamsOK_pin_distinct hInv.1 hkv (alGet_mem hteam) hne
    · exact (hInv.2 (sid, team) (alGet_mem hteam)).2
    · exact (hInv.2 (sid, team) (alGet_mem hteam)).1

theorem hostAdjustScoreHandler_inv (w : World) (sid tid : String) (d : Option ℚ)
    (hInv : InvTeams w) : InvTeams (hostAdjustScoreHandler w sid tid d) := by
  by_cases hh : w.state.hostId ≠ some sid
  · rw [hostAdjustScoreHandler, if_pos hh]
    exact hInv
  · rw [hostAdjustScoreHandler, if_neg hh]
    cases ht : alGet w.state.teams tid with
    | none => exact hInv
    | some t =>
      cases d with
      | none => exact hInv
      | some dq =>
        refine ⟨teamsOK_alSet hInv.1 ?_, tiedL_alSet hInv.2 ?_ ?_⟩
        · intro kv hkv hne
          show kv.2.pin ≠ t.pin
          exact teamsOK_pin_distinct hInv.1 hkv (alGet_mem ht) hne
        · exact (hInv.2 (tid, t) (alGet_mem ht)).2
        · exact (hInv.2 (tid, t) (alGet_mem ht)).1

theorem scoreTeamOnReveal_pin_id (c : ℤ) (ts : ℚ) (t : Team) :
    (scoreTeamOnReveal c ts t).pin = t.pin ∧ (scoreTeamOnReveal c ts t).id = t.id := by
  rw [scoreTeamOnReveal]
  dsimp only
  split <;> exact ⟨rfl, rfl⟩

theorem invS_startQuestion (s : SessionState) (i : ℤ) (h : InvS s) :
    InvS (startQuestion s i) := by
  constructor
  · exact teamsOK_map _ (fun t => rfl) h.1
  · exact tiedL_map _ (fun t => ⟨rfl, rfl⟩) h.2

theorem invS_resume (s : SessionState) (now : ℤ) (h : InvS s) :
    InvS (resume s now) := by
  rw [resume]
  split
  · exact h
  · have hf := logQuestionIfNeeded_fields s now
    constructor
    · show TeamsOK (logQuestionIfNeeded s now).1.teams
      rw [hf.2.2.2.2.1]
      exact h.1
    · show TeamsTiedL (logQuestionIfNeeded s now).1.teams
        (logQuestionIfNeeded s now).1.claimedPins
      rw [hf.2.2.2.2.1, hf.2.2.2.2.2]
      exact h.2

theorem invS_pause (s : SessionState) (now : ℤ) (h : InvS s) :
    InvS (pause s now) := by
  rw [pause]
  split
  · exact h
  · exact ⟨h.1, h.2⟩

theorem invS_revealAnswer (s : SessionState) (now : ℤ) (h : InvS s) :
    InvS (revealAnswer s now) := by
  rw [revealAnswer, revealAnswerFx]
  split
  · exact h
  · split
    all_goals
      dsimp only
      split
      · exact ⟨h.1, h.2⟩
      · split
        · refine ⟨?_, ?_⟩
          · simp only [logQuestionIfNeeded_fields]
            exact teamsOK_map
              (fun t => { t with lastResult := none, lastPointsAwarded := 0 })
              (fun t => rfl) h.1
          · simp only [logQuestionIfNeeded_fields]
            exact tiedL_map
              (fun t => { t with lastResult := none, lastPointsAwarded := 0 })
              (fun t => ⟨rfl, rfl⟩) h.2
        · refine ⟨?_, ?_⟩
          · simp only [logQuestionIfNeeded_fields]
            exact teamsOK_map _ (fun t => (scoreTeamOnReveal_pin_id _ _ t).1) h.1
          · simp only [logQuestionIfNeeded_fields]
            exact tiedL_map _ (fun t => ⟨(scoreTeamOnReveal_pin_id _ _ t).1,
              (scoreTeamOnReveal_pin_id _ _ t).2⟩) h.2

theorem invS_showLeaderboard (s : SessionState) (h : InvS s) :
    InvS (showLeaderboard s) := by
  rw [showLeaderboard]
  split
  · exact h
  · exact ⟨h.1, h.2⟩

theorem invS_nextQuestion (s : SessionState) (h : InvS s) :
    InvS (nextQuestion s) := by
  rw [nextQuestion]
  split
  · exact ⟨h.1, h.2⟩
  · exact invS_startQuestion _ _ h

theorem step_invTeams (reg : List TeamInfo) (bank : List Question) (w : World)
    (e : Event) (h : InvTeams w) : InvTeams (step reg bank w e) := by
  cases e with
  | connect sid =>
    simp only [step]
    split
    · exact h
    · exact ⟨h.1, h.2⟩
  | disconnect sid =>
    simp only [step]
    split
    · exact (disconnectCleanup_inv
        { w with connected := setDel w.connected sid } sid ⟨h.1, h.2⟩).1
    · exact h
  | registerHost sid =>
    simp only [step, fromSocket]
    split
    · exact ⟨h.1, h.2⟩
    · exact h
  | registerProjector sid =>
    simp only [step, fromSocket]
    split
    · exact ⟨h.1, h.2⟩
    · exact h
  | joinTeam sid p ip ua now =>
    simp only [step, fromSocket]
    split
    · exact joinTeamHandler_inv reg w sid p ip ua now h
    · exact h
  | hostKickTeam sid tid p =>
    simp only [step, fromSocket]
    split
    · exact hostKickTeamHandler_inv w sid tid p h
    · exact h
  | hostApproveTakeover sid p now =>
    simp only [step, fromSocket]
    split
    · exact hostApproveTakeoverHandler_inv reg w sid p now h
    · exact h
  | hostDenyTakeover sid p =>
    simp only [step, fromSocket]
    split
    · by_cases hh : w.state.hostId ≠ some sid
      · rw [hostDenyTakeoverHandler, if_pos hh]
        exact h
      · rw [hostDenyTakeoverHandler, if_neg hh]
        dsimp only
        cases alGet w.pendingTakeovers (jsTrim p) with
        | none => exact h
        | some req => exact ⟨h.1, h.2⟩
    · exact h
  | lockAnswer sid c now =>
    simp only [step, fromSocket]
    split
    · exact lockAnswerHandler_inv w sid c now h
    · exact h
  | hostReset sid gid =>
    simp only [step, fromSocket]
    split
    · rw [hostResetHandler]
      split
      · exact h
      · refine ⟨List.Pairwise.nil, ?_⟩
        intro kv hkv
        exact absurd hkv (List.not_mem_nil kv)
    · exact h
  | hostSetShuffle sid sq sc =>
    simp only [step, fromSocket]
    split
    · by_cases hh : w.state.hostId ≠ some sid
      · rw [hostSetShuffleHandler.eq_def, if_pos hh]
        exact h
      · rw [hostSetShuffleHandler.eq_def, if_neg hh]
        cases sq <;> cases sc <;> exact ⟨h.1, h.2⟩
    · exact h
  | hostSetManualScoring sid b =>
    simp only [step, fromSocket]
    split
    · by_cases hh : w.state.hostId ≠ some sid
      · rw [hostSetManualScoringHandler, if_pos hh]
        exact h
      · rw [hostSetManualScoringHandler, if_neg hh]
        exact ⟨h.1, h.2⟩
    · exact h
  | hostAdjustScore sid tid d =>
    simp only [step, fromSocket]
    split
    · exact hostAdjustScoreHandler_inv w sid tid d h
    · exact h
  | hostStart sid rc rq =>
    simp only [step, fromSocket]
    split
    · rw [hostStartHandler]
      split
      · exact h
      · split
        · exact h
        · exact invS_startQuestion _ 0 ⟨h.1, h.2⟩
    · exact h
  | hostPauseToggle sid now =>
    simp only [step, fromSocket]
    split
    · rw [hostPauseToggleHandler]
      split
      · exact h
      · split
        · exact h
        · split
          · exact invS_resume _ _ ⟨h.1, h.2⟩
          · exact invS_pause _ _ ⟨h.1, h.2⟩
    · exact h
  | hostReveal sid now =>
    simp only [step, fromSocket]
    split
    · rw [hostRevealHandler]
      split
      · exact h
      · split
        · exact h
        · exact invS_revealAnswer _ _ ⟨h.1, h.2⟩
    · exact h
  | hostNext sid =>
    simp only [step, fromSocket]
    split
    · rw [hostNextHandler]
      split
      · exact h
      · split
        · exact invS_showLeaderboard _ ⟨h.1, h.2⟩
        · split
          · exact invS_nextQuestion _ ⟨h.1, h.2⟩
          · exact h
    · exact h
  | tick now =>
    simp only [step, tickStep]
    split
    · exact h
    · split
      · exact h
      · split
        · split
          · exact invS_revealAnswer _ _ ⟨h.1, h.2⟩
          · exact h
        · exact h

/-- C2 counterexample: the claimed set is not always exactly the set of held
codes. After host h approves b's takeover of pin 1 — requested before b
joined normally under pin 2 — code 2 is still claimed while no live team
holds it (b's team object for pin 2 was silently overwritten). -/
theorem claimed_iff_holder_cex :
    ("2" : String) ∈ c2world.state.claimedPins
    ∧ (c2world.state.teams.filter fun kv => decide (kv.2.pin = "2")).length = 0 := by
  exact ⟨by decide, by decide⟩

/-- C2 amended: in every reachable state, at most one live team holds any
given code and every held code is claimed (but a code can remain claimed
with no live holder, as the counterexample shows); and a pending takeover
request by itself — its creation or replacement by joinTeam, or its denial —
never removes any current holder: only approval, kick, disconnect or reset
do. -/
theorem claimed_iff_holder_amended :
    ∀ (reg : List TeamInfo) (bank : List Question) (gid : ℤ) (es : List Event),
      (∀ kv1 ∈ (runEvents reg bank gid es).state.teams,
        ∀ kv2 ∈ (runEvents reg bank gid es).state.teams,
          kv1.1 ≠ kv2.1 → kv1.2.pin ≠ kv2.2.pin)
      ∧ (∀ kv ∈ (runEvents reg bank gid es).state.teams,
          kv.2.pin ∈ (runEvents reg bank gid es).state.claimedPins)
      ∧ (∀ (w : World) (sid p ip ua : String) (now : ℤ) (kv : String × Team),
          kv ∈ w.state.teams →
          kv ∈ (step reg bank w (.joinTeam sid p ip ua now)).state.teams)
      ∧ (∀ (w : World) (sid p : String),
          (step reg bank w (.hostDenyTakeover sid p)).state.teams
            = w.state.teams) := by
  intro reg bank gid es
  have hInv : InvTeams (runEvents reg bank gid es) := by
    rw [runEvents]
    refine foldl_inv reg bank InvTeams (step_invTeams reg bank) es (initWorld gid) ?_
    refine ⟨List.Pairwise.nil, ?_⟩
    intro kv hkv
    exact absurd hkv (List.not_mem_nil kv)
  refine ⟨?_, ?_, ?_, ?_⟩
  · intro kv1 h1 kv2 h2 hne
    have h1' : (kv1.1, kv1.2) ∈ (runEvents reg bank gid es).state.teams := by
      simpa using h1
    have h2' : (kv2.1, kv2.2) ∈ (runEvents reg bank gid es).state.teams := by
      simpa using h2
    exact teamsOK_pin_distinct hInv.1 h1' h2' hne
  · intro kv hkv
    exact (hInv.2 kv hkv).1
  · intro w sid p ip ua now kv hkv
    simp only [step, fromSocket]
    split
    · rw [joinTeamHandler]
      cases hfind : reg.find? (fun t => decide (t.pin = jsTrim p)) with
      | none => exact hkv
      | some info =>
        dsimp only
        by_cases hj : (alGet w.state.teams sid).isSome
        · rw [if_pos hj]
          exact hkv
        · rw [if_neg hj]
          by_cases hclaimed : jsTrim p ∈ w.state.claimedPins
          · rw [if_pos hclaimed]
            exact hkv
          · rw [if_neg hclaimed]
            have halg : alGet w.state.teams sid = none := by
              cases halg : alGet w.state.teams sid with
              | none => rfl
              | some t =>
                rw [halg] at hj
                simp at hj
            show kv ∈ alSet w.state.teams sid _
            rw [alGet_none_alSet halg]
            exact List.mem_append_left _ hkv
    · exact hkv
  · intro w sid p
    simp only [step, fromSocket]
    split
    · by_cases hh : w.state.hostId ≠ some sid
      · rw [hostDenyTakeoverHandler, if_pos hh]
      · rw [hostDenyTakeoverHandler, if_neg hh]
        dsimp only
        cases alGet w.pendingTakeovers (jsTrim p) with
        | none => rfl
        | some req => rfl
    · rfl

end Dovui
